import Mathlib

/-!
Verification of the spaced-repetition scheduling, selection, aggregation
and import logic of the srs repository.

The embedding follows the TypeScript source:
- timestamps are integers (milliseconds); the local-midnight truncation
  performed by `setHours(0,0,0,0)` / `startOfDay` is modelled by flooring to a
  multiple of `msPerDay` (a fixed-offset timezone, which is all the
  day-granularity claims depend on);
- JavaScript numbers holding the ease factor are modelled by exact rationals;
  the interval and the difficulty rating are integer-valued in every code path
  and are modelled by naturals;
- the stable `Array.prototype.sort` is modelled by a stable insertion sort on
  the comparator-induced strict order (any stable sort agrees with it on the
  consistent comparators used here);
- the JavaScript `Map`-based de-duplication (insertion order = first time a
  key is seen, value = last value written for the key) is modelled by
  `dedupById`;
- the JavaScript object used as the heatmap accumulator is modelled by an
  association list with in-place increment (`bumpKey`).
-/

namespace SRS

/-! ## Time (day-granularity arithmetic used by the engines) -/

def msPerDay : Int := 86400000

def dayOf (t : Int) : Int := Int.fdiv t msPerDay

/-- Model of `setHours(0,0,0,0)` / date-fns `startOfDay`. -/
def startOfDay (t : Int) : Int := dayOf t * msPerDay

/-- Model of date-fns `endOfDay` (23:59:59.999 of the same day). -/
def endOfDay (t : Int) : Int := startOfDay t + msPerDay - 1

/-! ## Data model (src types: Difficulty, ProblemStatus, Attempt, Problem) -/

inductive Difficulty where
  | Easy
  | Medium
  | Hard
deriving DecidableEq, Repr

inductive ProblemStatus where
  | new
  | learning
  | reviewing
  | mastered
deriving DecidableEq, Repr

structure Attempt where
  id : String
  date : Int
  success : Bool
  difficultyRating : Nat
  notes : Option String
deriving DecidableEq, Repr

/-- The caller-supplied part of an attempt (TS `Omit<Attempt, 'id' | 'date'>`). -/
structure AttemptInput where
  success : Bool
  difficultyRating : Nat
  notes : Option String
deriving DecidableEq, Repr

structure Problem where
  id : String
  name : String
  url : String
  difficulty : Difficulty
  category : String
  status : ProblemStatus
  attempts : List Attempt
  nextReviewDate : Int
  easeFactor : ℚ
  interval : Nat
  lastReviewed : Option Int
  mastered : Bool
  createdAt : Int
deriving DecidableEq, Repr

/-! ## Update engine (srs.ts, doubling-interval version) -/

def MIN_EASE_FACTOR : ℚ := 1.3

def DEFAULT_EASE_FACTOR : ℚ := 2.5

def calculateQuality (success : Bool) (difficultyRating : Nat) : Nat :=
  if !success then 0
  else min 5 (5 - difficultyRating)

def calculateNewEaseFactor (currentEaseFactor : ℚ) (quality : Nat) : ℚ :=
  let newEaseFactor :=
    currentEaseFactor +
      (0.1 - (5 - (quality : ℚ)) * (0.08 + (5 - (quality : ℚ)) * 0.02))
  if newEaseFactor < MIN_EASE_FACTOR then MIN_EASE_FACTOR
  else newEaseFactor

def calculateNewInterval (currentInterval : Nat) (quality : Nat) : Nat :=
  if quality = 0 then 1
  else if currentInterval = 0 then 1
  else currentInterval * 2

/-- The new-attempt id and the current time, produced by the environment in
the source (`Date.now()`, `Math.random()`, `new Date()`), are injected. -/
def updateProblemWithAttempt (now : Int) (newId : String) (problem : Problem)
    (attempt : AttemptInput) : Problem :=
  let quality := calculateQuality attempt.success attempt.difficultyRating
  let newEaseFactor := calculateNewEaseFactor problem.easeFactor quality
  let newInterval := calculateNewInterval problem.interval quality
  let newAttempt : Attempt :=
    { id := newId, date := now, success := attempt.success,
      difficultyRating := attempt.difficultyRating, notes := attempt.notes }
  let newStatus : ProblemStatus :=
    if problem.mastered then .mastered
    else if 30 ≤ newInterval then .mastered
    else if problem.status = .new then .learning
    else .reviewing
  { problem with
    attempts := problem.attempts ++ [newAttempt]
    easeFactor := newEaseFactor
    interval := newInterval
    nextReviewDate := now + (newInterval : Int) * msPerDay
    lastReviewed := some now
    status := newStatus
    mastered := decide (30 ≤ newInterval) || problem.mastered }

def createNewProblem (now : Int) (newId : String) (name url : String)
    (difficulty : Difficulty) (category : String) : Problem :=
  { id := newId
    name := name
    url := url
    difficulty := difficulty
    category := category
    status := .new
    attempts := []
    nextReviewDate := now + msPerDay
    easeFactor := DEFAULT_EASE_FACTOR
    interval := 0
    lastReviewed := none
    mastered := false
    createdAt := now }

/-- Repeated application of the update engine, one attempt at a time; each
list entry carries the clock value and fresh id for that call. -/
def applyAttempts (l : List (Int × String × AttemptInput)) (p : Problem) :
    Problem :=
  l.foldl (fun acc e => updateProblemWithAttempt e.1 e.2.1 acc e.2.2) p

/-! ## Selection engine (srs.ts, attempt-count based version) -/

def isDueToday (now : Int) (p : Problem) : Bool :=
  decide (startOfDay p.nextReviewDate ≤ startOfDay now)

def getAttemptsToday (now : Int) (p : Problem) : Nat :=
  if p.attempts.length = 0 then 0
  else (p.attempts.filter (fun a => startOfDay a.date == startOfDay now)).length

def isNewProblem (p : Problem) : Bool :=
  p.attempts.length == 0

def getDifficultyPriority : Difficulty → Nat
  | .Easy => 1
  | .Medium => 2
  | .Hard => 3

/-- Insert `a` into an already sorted list, after every element that the
comparator puts strictly before `a`. -/
def insertBy (lt : α → α → Bool) (a : α) : List α → List α
  | [] => [a]
  | b :: l => if lt b a then b :: insertBy lt a l else a :: b :: l

/-- Stable insertion sort: models the stable `Array.prototype.sort` applied
with a consistent comparator, `lt a b` meaning the comparator returns a
negative number on `(a, b)`. -/
def sortBy (lt : α → α → Bool) : List α → List α
  | [] => []
  | a :: l => insertBy lt a (sortBy lt l)

/-- The comparator of the new-problem group: in-progress problems (one or
more attempts today) first, then ascending difficulty priority. -/
def newProblemCmp (now : Int) (a b : Problem) : Bool :=
  let aT := getAttemptsToday now a
  let bT := getAttemptsToday now b
  if 0 < aT ∧ bT = 0 then true
  else if aT = 0 ∧ 0 < bT then false
  else decide (getDifficultyPriority a.difficulty < getDifficultyPriority b.difficulty)

/-- One `map.set(p.id, p)` step of the JavaScript `Map` used for
de-duplication: an existing key keeps its position but receives the new
value, a fresh key is appended. -/
def mapInsert (acc : List Problem) (p : Problem) : List Problem :=
  if acc.any (fun q => q.id == p.id) then
    acc.map (fun q => if q.id == p.id then p else q)
  else acc ++ [p]

/-- `Array.from(new Map(l.map(p => [p.id, p])).values())`. -/
def dedupById (l : List Problem) : List Problem :=
  l.foldl mapInsert []

def getProblemsDueToday (now : Int) (problems : List Problem) : List Problem :=
  let nonMastered := problems.filter (fun p => !p.mastered)
  let repeatedDueToday := nonMastered.filter (fun p =>
    !isNewProblem p && isDueToday now p && decide (getAttemptsToday now p < 1))
  let newProblems := sortBy (newProblemCmp now)
    (nonMastered.filter (fun p =>
      isNewProblem p && decide (getAttemptsToday now p < 2)))
  let selectedNewProblems := newProblems.take 2
  dedupById (repeatedDueToday ++ selectedNewProblems)

def getMasteredProblems (problems : List Problem) : List Problem :=
  problems.filter (fun p => p.mastered)

/-! ## Legacy selection engine (older srs.ts version kept in the tree) -/

def wasAttemptedToday (now : Int) (p : Problem) : Bool :=
  match p.attempts.getLast? with
  | none => false
  | some a => startOfDay a.date == startOfDay now

def getProblemsDueTodayLegacy (now : Int) (problems : List Problem) :
    List Problem :=
  let nonMastered := problems.filter (fun p => !p.mastered)
  let dueToday := nonMastered.filter (fun p => isDueToday now p)
  let attemptedToday := nonMastered.filter (fun p => wasAttemptedToday now p)
  let newProblems := (sortBy (fun a b =>
      decide (getDifficultyPriority a.difficulty < getDifficultyPriority b.difficulty))
    (nonMastered.filter (fun p => p.attempts.length == 0))).take 2
  dedupById (dueToday ++ attemptedToday ++ newProblems)

/-! ## Aggregation engine (stats: activity heatmap) -/

/-- `values[key] = (values[key] ?? 0) + 1` on the JavaScript object used as
the heatmap accumulator: bump an existing key in place, append a fresh one. -/
def bumpKey : List (Int × Nat) → Int → List (Int × Nat)
  | [], k => [(k, 1)]
  | e :: t, k => if e.1 == k then (e.1, e.2 + 1) :: t else e :: bumpKey t k

structure Heatmap where
  startDate : Int
  endDate : Int
  values : List (Int × Nat)
deriving DecidableEq, Repr

/-- `buildHeatmap` of the stats module; the `yyyy-MM-dd` keys are modelled by
the day numbers they stand for (the formatting is injective on days). Attempt
dates are modelled as always parseable, so the `parseISO` NaN guard is not
represented. -/
def buildHeatmap (problems : List Problem) (startDate endDate : Int) :
    Heatmap :=
  let normalizedStart := startOfDay startDate
  let normalizedEnd := endOfDay endDate
  let values := (problems.flatMap (fun p => p.attempts)).foldl
    (fun m a =>
      if normalizedStart ≤ startOfDay a.date ∧ startOfDay a.date ≤ normalizedEnd
      then bumpKey m (dayOf a.date)
      else m)
    []
  { startDate := normalizedStart, endDate := normalizedEnd, values := values }

/-- The rolling-window heatmap exactly as `calculateStats` wires it:
`rollingEnd = startOfToday`, `rollingStart = subDays(rollingEnd, 364)`. -/
def rollingHeatmap (now : Int) (problems : List Problem) : Heatmap :=
  buildHeatmap problems (startOfDay now - 364 * msPerDay) (startOfDay now)

/-! ## Import (storage.ts `importFromJsonText` on an already parsed value) -/

inductive Json where
  | null
  | bool (b : Bool)
  | num (q : ℚ)
  | str (s : String)
  | arr (elems : List Json)
  | obj (fields : List (String × Json))

/-- The validation performed before touching storage: the parsed value is an
object (truthy, `typeof === 'object'`), its `version` property is a number
and its `problems` property is an array. -/
def isValidBackup : Json → Bool
  | .obj fields =>
      (match fields.lookup "version" with
       | some (.num _) => true
       | _ => false)
      &&
      (match fields.lookup "problems" with
       | some (.arr _) => true
       | _ => false)
  | _ => false

def problemsOf : Json → Option (List Json)
  | .obj fields =>
      match fields.lookup "problems" with
      | some (.arr elems) => some elems
      | _ => none
  | _ => none

/-- `importFromJsonText` after `JSON.parse` succeeded: the first component is
the stored collection after the call, the second the returned count or the
thrown error message. The second `Array.isArray` check of the source is kept
(its failure branch is unreachable once validation passed). -/
def importFromJsonValue (parsed : Json) (store : List Json) :
    List Json × Except String Nat :=
  if isValidBackup parsed then
    match problemsOf parsed with
    | some elems => (elems, .ok elems.length)
    | none => (store, .error "Invalid problems array")
  else (store, .error "Invalid backup format")

/-- The shape the spec says an importable backup must have: an object with a
numeric `version` field and an array `problems` field. -/
def BackupShapeOk (v : Json) : Prop :=
  ∃ fields q elems, v = Json.obj fields ∧
    fields.lookup "version" = some (Json.num q) ∧
    fields.lookup "problems" = some (Json.arr elems)

/-! ## Specification-side selection policy (transcribed from the spec text,
for the refinement comparison of the selection claims) -/

/-- Number of attempts of `p` whose calendar day is the calendar day of
`now`, the day-granularity count the spec describes. -/
def specAttemptsToday (now : Int) (p : Problem) : Nat :=
  (p.attempts.filter (fun a => dayOf a.date == dayOf now)).length

/-- Spec text: non-mastered, at least one prior attempt, `nextReviewDate`
calendar day on or before today, fewer than 1 attempt logged today. -/
def specRepeatFilter (now : Int) (p : Problem) : Bool :=
  !p.mastered && !p.attempts.isEmpty &&
    decide (dayOf p.nextReviewDate ≤ dayOf now) &&
    decide (specAttemptsToday now p < 1)

/-- Spec text: non-mastered, zero attempts ever, fewer than 2 attempts
logged today. -/
def specNewFilter (now : Int) (p : Problem) : Bool :=
  !p.mastered && p.attempts.isEmpty && decide (specAttemptsToday now p < 2)

/-- Sort key, first component: problems already attempted today sort ahead
of those not attempted today. -/
def specNewKeyOne (now : Int) (p : Problem) : Nat :=
  if 0 < specAttemptsToday now p then 0 else 1

/-- Spec text ordering of the new-problem group: attempted-today first, then
ascending difficulty priority Easy(1) < Medium(2) < Hard(3). -/
def specNewLt (now : Int) (a b : Problem) : Bool :=
  decide (specNewKeyOne now a < specNewKeyOne now b ∨
    (specNewKeyOne now a = specNewKeyOne now b ∧
      getDifficultyPriority a.difficulty < getDifficultyPriority b.difficulty))

/-- De-duplication by id keeping the first occurrence, as the spec words
describe it. -/
def dedupFirstById (l : List Problem) : List Problem :=
  l.foldl (fun acc p => if acc.any (fun q => q.id == p.id) then acc else acc ++ [p]) []

/-- The selection policy exactly as the spec states it: repeat candidates in
original relative order, then at most the first 2 sorted new-problem
candidates, de-duplicated by id keeping the first occurrence. -/
def specSelectDueToday (now : Int) (ps : List Problem) : List Problem :=
  dedupFirstById
    (ps.filter (specRepeatFilter now) ++
      (sortBy (specNewLt now) (ps.filter (specNewFilter now))).take 2)

/-- New interval the update engine computes for `p` and input `ai`. -/
def newIntervalOf (p : Problem) (ai : AttemptInput) : Nat :=
  calculateNewInterval p.interval (calculateQuality ai.success ai.difficultyRating)

/-! ## Concrete fixtures used by witnesses and counterexamples -/

def fixtureNow : Int := 10 * msPerDay + 5000

/-- A non-mastered problem that is due (review date long past) and was
already attempted once today. -/
def fixtureRepeatProblem : Problem :=
  { id := "p1", name := "n", url := "u", difficulty := .Easy, category := "c",
    status := .learning,
    attempts := [{ id := "a1", date := 10 * msPerDay + 1000, success := true,
                   difficultyRating := 3, notes := none }],
    nextReviewDate := 0, easeFactor := 2.5, interval := 1,
    lastReviewed := some (10 * msPerDay + 1000), mastered := false,
    createdAt := 0 }

/-- A non-mastered problem with interval 8 and no attempt today. -/
def fixtureInterval8 : Problem :=
  { id := "p8", name := "n", url := "u", difficulty := .Medium, category := "c",
    status := .reviewing,
    attempts := [{ id := "a0", date := 0, success := true,
                   difficultyRating := 2, notes := none }],
    nextReviewDate := 3 * msPerDay, easeFactor := 2.5, interval := 8,
    lastReviewed := some 0, mastered := false, createdAt := 0 }

/-- A well-formed backup value with an empty problems array. -/
def fixtureBackup : Json :=
  Json.obj [("version", Json.num 1), ("problems", Json.arr [])]

/-- A non-empty stored collection, to observe replacement. -/
def fixtureStore : List Json :=
  [Json.str "old"]

/-- An already mastered problem. -/
def fixtureMastered : Problem :=
  { id := "pm", name := "n", url := "u", difficulty := .Hard, category := "c",
    status := .mastered, attempts := [], nextReviewDate := 0,
    easeFactor := 2.5, interval := 32, lastReviewed := none, mastered := true,
    createdAt := 0 }

/-! ## Basic facts about the update engine -/

lemma update_easeFactor (now : Int) (newId : String) (p : Problem)
    (ai : AttemptInput) :
    (updateProblemWithAttempt now newId p ai).easeFactor =
      calculateNewEaseFactor p.easeFactor
        (calculateQuality ai.success ai.difficultyRating) := rfl

lemma update_interval (now : Int) (newId : String) (p : Problem)
    (ai : AttemptInput) :
    (updateProblemWithAttempt now newId p ai).interval = newIntervalOf p ai := rfl

lemma update_nextReviewDate (now : Int) (newId : String) (p : Problem)
    (ai : AttemptInput) :
    (updateProblemWithAttempt now newId p ai).nextReviewDate =
      now + (newIntervalOf p ai : Int) * msPerDay := rfl

lemma update_mastered (now : Int) (newId : String) (p : Problem)
    (ai : AttemptInput) :
    (updateProblemWithAttempt now newId p ai).mastered =
      (decide (30 ≤ newIntervalOf p ai) || p.mastered) := rfl

lemma update_status (now : Int) (newId : String) (p : Problem)
    (ai : AttemptInput) :
    (updateProblemWithAttempt now newId p ai).status =
      (if p.mastered then ProblemStatus.mastered
       else if 30 ≤ newIntervalOf p ai then ProblemStatus.mastered
       else if p.status = ProblemStatus.new then ProblemStatus.learning
       else ProblemStatus.reviewing) := rfl

/-- The ease-factor update floors its result at 1.3 unconditionally. -/
lemma ease_floor (e : ℚ) (q : Nat) : (1.3 : ℚ) ≤ calculateNewEaseFactor e q := by
  simp only [calculateNewEaseFactor, MIN_EASE_FACTOR]
  split_ifs with h
  · norm_num
  · exact le_of_not_lt (by exact_mod_cast h)

/-- The interval update always produces a strictly positive interval. -/
lemma interval_pos (n q : Nat) : 1 ≤ calculateNewInterval n q := by
  simp only [calculateNewInterval]
  split_ifs <;> omega

/-! ## Claim theorems: update engine -/

/-- Claim C2: the interval produced by the update engine is 1 when quality
is 0, 1 when quality is positive and the current interval is 0, and exactly
twice the current interval when quality is positive and the current interval
is positive. -/
theorem claim_C2 (now : Int) (newId : String) (p : Problem) (ai : AttemptInput) :
    (calculateQuality ai.success ai.difficultyRating = 0 →
      (updateProblemWithAttempt now newId p ai).interval = 1) ∧
    (0 < calculateQuality ai.success ai.difficultyRating → p.interval = 0 →
      (updateProblemWithAttempt now newId p ai).interval = 1) ∧
    (0 < calculateQuality ai.success ai.difficultyRating → 0 < p.interval →
      (updateProblemWithAttempt now newId p ai).interval = 2 * p.interval) := by
  simp only [update_interval, newIntervalOf, calculateNewInterval]
  refine ⟨fun h0 => ?_, fun hq hi => ?_, fun hq hi => ?_⟩ <;>
    split_ifs <;> omega

/-- Witness for C2: a problem with interval 8 given a successful attempt
with difficulty rating 0 gets interval 16. -/
theorem claim_C2_witness :
    (updateProblemWithAttempt 0 "w" fixtureInterval8
      ⟨true, 0, none⟩).interval = 2 * fixtureInterval8.interval :=
  (claim_C2 0 "w" fixtureInterval8 ⟨true, 0, none⟩).2.2 (by decide) (by decide)

/-- Claim C10 (implicit): the update engine always produces an interval of
at least 1, so the recomputed next review date is at least one day after
now. -/
theorem claim_C10 (now : Int) (newId : String) (p : Problem) (ai : AttemptInput) :
    1 ≤ (updateProblemWithAttempt now newId p ai).interval ∧
    now + msPerDay ≤ (updateProblemWithAttempt now newId p ai).nextReviewDate := by
  have h1 : 1 ≤ newIntervalOf p ai := interval_pos _ _
  constructor
  · rw [update_interval]; exact h1
  · rw [update_nextReviewDate]
    simp only [msPerDay]
    omega

/-- Folding the update engine over any attempt list keeps the ease factor at
or above 1.3 if it started there. -/
lemma applyAttempts_ease_ge (l : List (Int × String × AttemptInput)) :
    ∀ p : Problem, (1.3 : ℚ) ≤ p.easeFactor →
      (1.3 : ℚ) ≤ (applyAttempts l p).easeFactor := by
  induction l with
  | nil => intro p hp; exact hp
  | cons e t ih =>
    intro p _
    show (1.3 : ℚ) ≤
      (applyAttempts t (updateProblemWithAttempt e.1 e.2.1 p e.2.2)).easeFactor
    exact ih _ (by rw [update_easeFactor]; exact ease_floor _ _)

/-- Claim C3: the updated ease factor is at least 1.3 whenever the input ease
factor is, and any sequence of attempts starting from the default ease factor
2.5 keeps the ease factor at or above 1.3. -/
theorem claim_C3 :
    (∀ (now : Int) (newId : String) (p : Problem) (ai : AttemptInput),
      (1.3 : ℚ) ≤ p.easeFactor →
      (1.3 : ℚ) ≤ (updateProblemWithAttempt now newId p ai).easeFactor) ∧
    (∀ (p : Problem) (l : List (Int × String × AttemptInput)),
      p.easeFactor = (2.5 : ℚ) →
      (1.3 : ℚ) ≤ (applyAttempts l p).easeFactor) := by
  constructor
  · intro now newId p ai _
    rw [update_easeFactor]
    exact ease_floor _ _
  · intro p l hp
    exact applyAttempts_ease_ge l p (by rw [hp]; norm_num)

/-- Witness for C3. -/
theorem claim_C3_witness :
    (1.3 : ℚ) ≤ (applyAttempts [(0, "w", ⟨false, 5, none⟩)]
      (createNewProblem 0 "w0" "n" "u" Difficulty.Easy "c")).easeFactor :=
  claim_C3.2 (createNewProblem 0 "w0" "n" "u" Difficulty.Easy "c")
    [(0, "w", ⟨false, 5, none⟩)] rfl

/-- Claim C4: status transition and mastered flag of the update engine: an
already mastered problem stays mastered; a new interval of at least 30 makes
the problem mastered; otherwise status becomes learning from new and
reviewing from anything else with the mastered flag staying false; mastered
equals (new interval at least 30) OR (previously mastered), is sticky, and
the output always satisfies mastered implies status mastered. -/
theorem claim_C4 (now : Int) (newId : String) (p : Problem) (ai : AttemptInput) :
    (p.mastered = true →
      (updateProblemWithAttempt now newId p ai).status = ProblemStatus.mastered ∧
      (updateProblemWithAttempt now newId p ai).mastered = true) ∧
    (p.mastered = false → 30 ≤ newIntervalOf p ai →
      (updateProblemWithAttempt now newId p ai).status = ProblemStatus.mastered ∧
      (updateProblemWithAttempt now newId p ai).mastered = true) ∧
    (p.mastered = false → newIntervalOf p ai < 30 →
      (updateProblemWithAttempt now newId p ai).mastered = false ∧
      (p.status = ProblemStatus.new →
        (updateProblemWithAttempt now newId p ai).status = ProblemStatus.learning) ∧
      (p.status ≠ ProblemStatus.new →
        (updateProblemWithAttempt now newId p ai).status = ProblemStatus.reviewing)) ∧
    (updateProblemWithAttempt now newId p ai).mastered =
      (decide (30 ≤ newIntervalOf p ai) || p.mastered) ∧
    ((updateProblemWithAttempt now newId p ai).mastered = true →
      (updateProblemWithAttempt now newId p ai).status = ProblemStatus.mastered) := by
  simp only [update_status, update_mastered]
  by_cases hm : p.mastered <;>
    by_cases hi : 30 ≤ newIntervalOf p ai <;>
    by_cases hs : p.status = ProblemStatus.new <;>
    simp [hm, hi, hs]

/-- Witness for C4: an attempt on the already-mastered fixture keeps status
mastered and the mastered flag. -/
theorem claim_C4_witness :
    (updateProblemWithAttempt 0 "w" fixtureMastered
      ⟨false, 5, none⟩).status = ProblemStatus.mastered ∧
    (updateProblemWithAttempt 0 "w" fixtureMastered
      ⟨false, 5, none⟩).mastered = true :=
  (claim_C4 0 "w" fixtureMastered ⟨false, 5, none⟩).1 rfl

/-- Claim C7: the update engine appends exactly one attempt, leaves all prior
attempts unchanged and in order, and leaves id, name, url, difficulty,
category and createdAt unchanged. -/
theorem claim_C7 (now : Int) (newId : String) (p : Problem) (ai : AttemptInput) :
    (updateProblemWithAttempt now newId p ai).attempts =
      p.attempts ++ [{ id := newId, date := now, success := ai.success,
                       difficultyRating := ai.difficultyRating,
                       notes := ai.notes }] ∧
    (updateProblemWithAttempt now newId p ai).attempts.length =
      p.attempts.length + 1 ∧
    (updateProblemWithAttempt now newId p ai).attempts.take p.attempts.length =
      p.attempts ∧
    (updateProblemWithAttempt now newId p ai).id = p.id ∧
    (updateProblemWithAttempt now newId p ai).name = p.name ∧
    (updateProblemWithAttempt now newId p ai).url = p.url ∧
    (updateProblemWithAttempt now newId p ai).difficulty = p.difficulty ∧
    (updateProblemWithAttempt now newId p ai).category = p.category ∧
    (updateProblemWithAttempt now newId p ai).createdAt = p.createdAt := by
  refine ⟨rfl, ?_, ?_, rfl, rfl, rfl, rfl, rfl, rfl⟩
  · show (p.attempts ++ [_]).length = p.attempts.length + 1
    simp
  · show (p.attempts ++ [_]).take p.attempts.length = p.attempts
    exact List.take_left p.attempts _

/-- Claim C1 counterexample: the one-failed-attempt scenario on a freshly
created problem produces ease factor 1.7, not the 2.5 − 0.3 = 2.2 the claim
states (the code subtracts 0.8 at quality 0, not 0.3). -/
theorem claim_C1_counterexample :
    (updateProblemWithAttempt 0 "a"
      (createNewProblem 0 "p" "n" "u" Difficulty.Easy "c")
      ⟨false, 5, none⟩).easeFactor = 17 / 10 ∧
    ((17 : ℚ) / 10) ≠ (2.5 : ℚ) - 0.3 := by
  constructor
  · rw [update_easeFactor]
    show calculateNewEaseFactor DEFAULT_EASE_FACTOR (calculateQuality false 5) = 17 / 10
    simp only [calculateQuality, calculateNewEaseFactor, MIN_EASE_FACTOR,
      DEFAULT_EASE_FACTOR]
    norm_num
  · norm_num

/-- Claim C1 (amended): one failed attempt with difficulty rating 5 on a
newly created problem (ease 2.5, interval 0, status new, not mastered) yields
quality 0, ease factor 2.5 − 0.8 = 1.7 (the floor at 1.3 not being hit),
interval 1, status learning, mastered false. -/
theorem claim_C1_amended (now : Int) (newId : String) (p : Problem)
    (he : p.easeFactor = (2.5 : ℚ)) (_hi : p.interval = 0)
    (hs : p.status = ProblemStatus.new) (hm : p.mastered = false) :
    calculateQuality false 5 = 0 ∧
    (updateProblemWithAttempt now newId p ⟨false, 5, none⟩).easeFactor =
      p.easeFactor - 0.8 ∧
    (updateProblemWithAttempt now newId p ⟨false, 5, none⟩).easeFactor = 1.7 ∧
    (updateProblemWithAttempt now newId p ⟨false, 5, none⟩).interval = 1 ∧
    (updateProblemWithAttempt now newId p ⟨false, 5, none⟩).status =
      ProblemStatus.learning ∧
    (updateProblemWithAttempt now newId p ⟨false, 5, none⟩).mastered = false := by
  have hq : calculateQuality false 5 = 0 := rfl
  have hiv : newIntervalOf p ⟨false, 5, none⟩ = 1 := by
    simp [newIntervalOf, hq, calculateNewInterval]
  have hef : (updateProblemWithAttempt now newId p ⟨false, 5, none⟩).easeFactor = 1.7 := by
    rw [update_easeFactor, hq, he]
    simp only [calculateNewEaseFactor, MIN_EASE_FACTOR]
    norm_num
  refine ⟨hq, ?_, hef, ?_, ?_, ?_⟩
  · rw [hef, he]; norm_num
  · rw [update_interval, hiv]
  · rw [update_status, hm, hiv, hs]
    norm_num
  · rw [update_mastered, hm, hiv]
    norm_num

/-- Witness for the amended C1, at a freshly created problem. -/
theorem claim_C1_amended_witness :
    (updateProblemWithAttempt 5000 "a"
      (createNewProblem 0 "p" "n" "u" Difficulty.Easy "c")
      ⟨false, 5, none⟩).easeFactor = 1.7 ∧
    (updateProblemWithAttempt 5000 "a"
      (createNewProblem 0 "p" "n" "u" Difficulty.Easy "c")
      ⟨false, 5, none⟩).interval = 1 :=
  have h := claim_C1_amended 5000 "a"
    (createNewProblem 0 "p" "n" "u" Difficulty.Easy "c") rfl rfl rfl rfl
  ⟨h.2.2.1, h.2.2.2.1⟩

/-! ## List lemmas for the stable sort and the Map de-duplication -/

lemma mem_insertBy {α : Type} (lt : α → α → Bool) (a x : α) :
    ∀ l : List α, x ∈ insertBy lt a l ↔ x = a ∨ x ∈ l := by
  intro l
  induction l with
  | nil => simp [insertBy]
  | cons b t ih =>
    simp only [insertBy]
    split_ifs with h
    · simp only [List.mem_cons, ih]
      tauto
    · simp only [List.mem_cons]

lemma mem_sortBy {α : Type} (lt : α → α → Bool) :
    ∀ l : List α, ∀ x, x ∈ sortBy lt l ↔ x ∈ l := by
  intro l
  induction l with
  | nil => simp [sortBy]
  | cons a t ih =>
    intro x
    simp only [sortBy, mem_insertBy, List.mem_cons, ih]

lemma insertBy_congr {α : Type} (lt₁ lt₂ : α → α → Bool) (a : α) :
    ∀ l : List α, (∀ b ∈ l, lt₁ b a = lt₂ b a) →
      insertBy lt₁ a l = insertBy lt₂ a l := by
  intro l
  induction l with
  | nil => intro _; rfl
  | cons b t ih =>
    intro h
    simp only [insertBy]
    rw [h b (List.mem_cons_self b t)]
    split_ifs with hb
    · rw [ih (fun c hc => h c (List.mem_cons_of_mem b hc))]
    · rfl

lemma sortBy_congr {α : Type} (lt₁ lt₂ : α → α → Bool) :
    ∀ l : List α, (∀ a ∈ l, ∀ b ∈ l, lt₁ a b = lt₂ a b) →
      sortBy lt₁ l = sortBy lt₂ l := by
  intro l
  induction l with
  | nil => intro _; rfl
  | cons a t ih =>
    intro h
    simp only [sortBy]
    rw [ih (fun x hx y hy =>
      h x (List.mem_cons_of_mem a hx) y (List.mem_cons_of_mem a hy))]
    exact insertBy_congr lt₁ lt₂ a _ (fun b hb =>
      h b (List.mem_cons_of_mem a ((mem_sortBy lt₂ t b).mp hb))
        a (List.mem_cons_self a t))

lemma mem_mapInsert {acc : List Problem} {p q : Problem}
    (h : q ∈ mapInsert acc p) : q ∈ acc ∨ q = p := by
  unfold mapInsert at h
  split_ifs at h with hany
  · rcases List.mem_map.mp h with ⟨r, hr, hrq⟩
    by_cases hid : (r.id == p.id) = true
    · rw [if_pos hid] at hrq
      exact Or.inr hrq.symm
    · rw [if_neg hid] at hrq
      exact Or.inl (hrq ▸ hr)
  · rcases List.mem_append.mp h with h1 | h1
    · exact Or.inl h1
    · exact Or.inr (List.mem_singleton.mp h1)

lemma mem_foldl_mapInsert {q : Problem} :
    ∀ (l acc : List Problem), q ∈ List.foldl mapInsert acc l →
      q ∈ acc ∨ q ∈ l := by
  intro l
  induction l with
  | nil => intro acc h; exact Or.inl h
  | cons x t ih =>
    intro acc h
    rcases ih (mapInsert acc x) h with h1 | h1
    · rcases mem_mapInsert h1 with h2 | h2
      · exact Or.inl h2
      · exact Or.inr (h2 ▸ List.mem_cons_self x t)
    · exact Or.inr (List.mem_cons_of_mem x h1)

lemma mem_dedupById_sub {q : Problem} {l : List Problem}
    (h : q ∈ dedupById l) : q ∈ l := by
  rcases mem_foldl_mapInsert l [] h with h1 | h1
  · exact absurd h1 (List.not_mem_nil q)
  · exact h1

lemma pairwise_ids_mapInsert {acc : List Problem} (p : Problem)
    (h : acc.Pairwise (fun a b => a.id ≠ b.id)) :
    (mapInsert acc p).Pairwise (fun a b => a.id ≠ b.id) := by
  unfold mapInsert
  split_ifs with hany
  · have hid : ∀ q : Problem,
        (if q.id == p.id then p else q).id = q.id := by
      intro q
      by_cases hq : (q.id == p.id) = true
      · rw [if_pos hq]
        exact (beq_iff_eq.mp hq).symm
      · rw [if_neg hq]
    rw [List.pairwise_map]
    exact h.imp (by intro a b hab; rw [hid a, hid b]; exact hab)
  · rw [List.pairwise_append]
    refine ⟨h, List.pairwise_singleton _ _, ?_⟩
    intro a ha b hb
    rw [List.mem_singleton.mp hb]
    intro heq
    have : acc.any (fun q => q.id == p.id) = true :=
      List.any_eq_true.mpr ⟨a, ha, beq_iff_eq.mpr heq⟩
    exact hany this

lemma pairwise_ids_foldl_mapInsert :
    ∀ (l acc : List Problem), acc.Pairwise (fun a b => a.id ≠ b.id) →
      (List.foldl mapInsert acc l).Pairwise (fun a b => a.id ≠ b.id) := by
  intro l
  induction l with
  | nil => intro acc h; exact h
  | cons x t ih =>
    intro acc h
    exact ih (mapInsert acc x) (pairwise_ids_mapInsert x h)

lemma pairwise_ids_dedupById (l : List Problem) :
    (dedupById l).Pairwise (fun a b => a.id ≠ b.id) :=
  pairwise_ids_foldl_mapInsert l [] (List.Pairwise.nil)

lemma nodup_dedupById (l : List Problem) : (dedupById l).Nodup :=
  (pairwise_ids_dedupById l).imp (by intro a b hab heq; exact hab (heq ▸ rfl))

lemma mem_mapInsert_of_mem {acc : List Problem} {p x : Problem}
    (hp : p ∈ acc) (hx : x.id = p.id → x = p) : p ∈ mapInsert acc x := by
  unfold mapInsert
  split_ifs with hany
  · by_cases hid : (p.id == x.id) = true
    · have hxp : x = p := hx (beq_iff_eq.mp hid).symm
      exact List.mem_map.mpr ⟨p, hp, by rw [if_pos hid, hxp]⟩
    · exact List.mem_map.mpr ⟨p, hp, by rw [if_neg hid]⟩
  · exact List.mem_append_left _ hp

lemma self_mem_mapInsert (acc : List Problem) (x : Problem) :
    x ∈ mapInsert acc x := by
  unfold mapInsert
  split_ifs with hany
  · rcases List.any_eq_true.mp hany with ⟨q, hq, hqid⟩
    exact List.mem_map.mpr ⟨q, hq, by rw [if_pos hqid]⟩
  · exact List.mem_append_right _ (List.mem_singleton.mpr rfl)

lemma mem_foldl_mapInsert_of_unique {p : Problem} :
    ∀ (l acc : List Problem), (p ∈ acc ∨ p ∈ l) →
      (∀ q ∈ acc, q.id = p.id → q = p) →
      (∀ q ∈ l, q.id = p.id → q = p) →
      p ∈ List.foldl mapInsert acc l := by
  intro l
  induction l with
  | nil =>
    intro acc hmem _ _
    rcases hmem with h | h
    · exact h
    · exact absurd h (List.not_mem_nil p)
  | cons x t ih =>
    intro acc hmem hacc hl
    have hacc2 : ∀ q ∈ mapInsert acc x, q.id = p.id → q = p := by
      intro q hq
      rcases mem_mapInsert hq with h1 | h1
      · exact hacc q h1
      · exact h1 ▸ hl x (List.mem_cons_self x t)
    have hl2 : ∀ q ∈ t, q.id = p.id → q = p :=
      fun q hq => hl q (List.mem_cons_of_mem x hq)
    rcases hmem with h | h
    · exact ih (mapInsert acc x)
        (Or.inl (mem_mapInsert_of_mem h (hl x (List.mem_cons_self x t)))) hacc2 hl2
    · rcases List.mem_cons.mp h with h1 | h1
      · exact ih (mapInsert acc x) (Or.inl (h1 ▸ self_mem_mapInsert acc x))
          hacc2 hl2
      · exact ih (mapInsert acc x) (Or.inr h1) hacc2 hl2

lemma mem_dedupById_of_unique {p : Problem} {l : List Problem}
    (hp : p ∈ l) (huniq : ∀ q ∈ l, q.id = p.id → q = p) : p ∈ dedupById l :=
  mem_foldl_mapInsert_of_unique l [] (Or.inr hp)
    (fun q hq => absurd hq (List.not_mem_nil q)) huniq

lemma foldl_mapInsert_eq_first :
    ∀ (l acc : List Problem),
      (∀ a ∈ acc, ∀ b ∈ l, a.id = b.id → a = b) →
      (∀ a ∈ l, ∀ b ∈ l, a.id = b.id → a = b) →
      List.foldl mapInsert acc l =
        List.foldl (fun acc p =>
          if acc.any (fun q => q.id == p.id) then acc else acc ++ [p]) acc l := by
  intro l
  induction l with
  | nil => intro acc _ _; rfl
  | cons x t ih =>
    intro acc hcross huniq
    have hstep : mapInsert acc x =
        (if acc.any (fun q => q.id == x.id) then acc else acc ++ [x]) := by
      unfold mapInsert
      split_ifs with hany
      · have : acc.map (fun q => if q.id == x.id then x else q) = acc := by
          rw [show acc.map (fun q => if q.id == x.id then x else q) =
                acc.map (fun q => q) from List.map_congr_left ?_, List.map_id']
          intro q hq
          by_cases hid : (q.id == x.id) = true
          · rw [if_pos hid]
            exact (hcross q hq x (List.mem_cons_self x t) (beq_iff_eq.mp hid)).symm
          · rw [if_neg hid]
        rw [this]
      · rfl
    show List.foldl mapInsert (mapInsert acc x) t = _
    rw [hstep]
    apply ih
    · intro a ha b hb
      by_cases hax : acc.any (fun q => q.id == x.id) = true
      · rw [if_pos hax] at ha
        exact hcross a ha b (List.mem_cons_of_mem x hb)
      · rw [if_neg hax] at ha
        rcases List.mem_append.mp ha with h1 | h1
        · exact hcross a h1 b (List.mem_cons_of_mem x hb)
        · rw [List.mem_singleton.mp h1]
          exact huniq x (List.mem_cons_self x t) b (List.mem_cons_of_mem x hb)
    · intro a ha b hb
      exact huniq a (List.mem_cons_of_mem x ha) b (List.mem_cons_of_mem x hb)

lemma dedupById_eq_dedupFirst {l : List Problem}
    (huniq : ∀ a ∈ l, ∀ b ∈ l, a.id = b.id → a = b) :
    dedupById l = dedupFirstById l :=
  foldl_mapInsert_eq_first l []
    (fun a ha => absurd ha (List.not_mem_nil a)) huniq

lemma pairwise_id_unique {ps : List Problem}
    (hids : ps.Pairwise (fun a b => a.id ≠ b.id)) :
    ∀ a ∈ ps, ∀ b ∈ ps, a.id = b.id → a = b := by
  induction ps with
  | nil => intro a ha; exact absurd ha (List.not_mem_nil a)
  | cons x t ih =>
    rcases List.pairwise_cons.mp hids with ⟨hx, ht⟩
    intro a ha b hb heq
    rcases List.mem_cons.mp ha with h1 | h1 <;>
      rcases List.mem_cons.mp hb with h2 | h2
    · rw [h1, h2]
    · exact absurd (h1 ▸ heq) (hx b h2)
    · exact absurd (h2 ▸ heq).symm (hx a h1)
    · exact ih ht a h1 b h2 heq

/-! ## Day-granularity equivalences between the code predicates and the
spec wording -/

lemma startOfDay_le_iff (x y : Int) :
    startOfDay x ≤ startOfDay y ↔ dayOf x ≤ dayOf y := by
  simp only [startOfDay, msPerDay]
  constructor <;> intro h <;> omega

lemma startOfDay_inj_iff (x y : Int) :
    startOfDay x = startOfDay y ↔ dayOf x = dayOf y := by
  simp only [startOfDay, msPerDay]
  constructor <;> intro h <;> omega

lemma startOfDay_beq_eq (x y : Int) :
    (startOfDay x == startOfDay y) = (dayOf x == dayOf y) := by
  by_cases h : startOfDay x = startOfDay y
  · rw [beq_iff_eq.mpr h, Eq.symm (beq_iff_eq.mpr ((startOfDay_inj_iff x y).mp h))]
  · have h2 : ¬ dayOf x = dayOf y := fun hc => h ((startOfDay_inj_iff x y).mpr hc)
    rw [beq_eq_false_iff_ne.mpr h, Eq.symm (beq_eq_false_iff_ne.mpr h2)]

lemma getAttemptsToday_eq (now : Int) (p : Problem) :
    getAttemptsToday now p = specAttemptsToday now p := by
  unfold getAttemptsToday specAttemptsToday
  split_ifs with h
  · rw [List.length_eq_zero.mp h]
    rfl
  · rw [List.filter_congr (fun a _ => startOfDay_beq_eq a.date now)]

lemma isDueToday_eq (now : Int) (p : Problem) :
    isDueToday now p = decide (dayOf p.nextReviewDate ≤ dayOf now) := by
  unfold isDueToday
  exact decide_eq_decide.mpr (startOfDay_le_iff _ _)

lemma isNewProblem_eq (p : Problem) : isNewProblem p = p.attempts.isEmpty := by
  unfold isNewProblem
  cases p.attempts <;> rfl

lemma newProblemCmp_eq (now : Int) (a b : Problem) :
    newProblemCmp now a b = specNewLt now a b := by
  unfold newProblemCmp specNewLt specNewKeyOne
  rw [getAttemptsToday_eq, getAttemptsToday_eq]
  rcases Nat.eq_zero_or_pos (specAttemptsToday now a) with ha | ha <;>
    rcases Nat.eq_zero_or_pos (specAttemptsToday now b) with hb | hb
  · simp [ha, hb]
  · simp [ha, hb]
  · simp [ha, hb, Nat.pos_iff_ne_zero.mp ha]
  · simp [ha, hb, Nat.pos_iff_ne_zero.mp ha, Nat.pos_iff_ne_zero.mp hb]

/-! ## Claim theorems: selection engine -/

/-- Claim C5: the due-today selection returns exactly the non-mastered
repeat candidates (at least one attempt, review day on or before today,
no attempt yet today) in original order, followed by at most the first 2
new-problem candidates after the attempted-today-then-difficulty sort,
de-duplicated by id keeping the first occurrence (stated for collections
whose ids are pairwise distinct, the data-model invariant); moreover, for
every collection the output never holds more than 2 zero-attempt problems
and never holds a mastered problem. -/
theorem claim_C5 (now : Int) (ps : List Problem) :
    (ps.Pairwise (fun a b => a.id ≠ b.id) →
      getProblemsDueToday now ps = specSelectDueToday now ps) ∧
    (getProblemsDueToday now ps).countP (fun p => p.attempts.isEmpty) ≤ 2 ∧
    (getProblemsDueToday now ps).all (fun p => !p.mastered) = true := by
  have hmain : getProblemsDueToday now ps =
      dedupById ((ps.filter (fun p => !p.mastered)).filter
          (fun p => !isNewProblem p && isDueToday now p &&
            decide (getAttemptsToday now p < 1)) ++
        (sortBy (newProblemCmp now) ((ps.filter (fun p => !p.mastered)).filter
          (fun p => isNewProblem p &&
            decide (getAttemptsToday now p < 2)))).take 2) := rfl
  refine ⟨?_, ?_, ?_⟩
  · intro hids
    have hR : (ps.filter (fun p => !p.mastered)).filter
        (fun p => !isNewProblem p && isDueToday now p &&
          decide (getAttemptsToday now p < 1)) =
        ps.filter (specRepeatFilter now) := by
      rw [List.filter_filter]
      apply List.filter_congr
      intro x _
      simp only [specRepeatFilter, isNewProblem_eq, isDueToday_eq,
        getAttemptsToday_eq]
      cases x.mastered <;> cases x.attempts.isEmpty <;> simp
    have hNF : (ps.filter (fun p => !p.mastered)).filter
        (fun p => isNewProblem p && decide (getAttemptsToday now p < 2)) =
        ps.filter (specNewFilter now) := by
      rw [List.filter_filter]
      apply List.filter_congr
      intro x _
      simp only [specNewFilter, isNewProblem_eq, getAttemptsToday_eq]
      cases x.mastered <;> cases x.attempts.isEmpty <;> simp
    have hcmp : newProblemCmp now = specNewLt now :=
      funext fun a => funext fun b => newProblemCmp_eq now a b
    rw [hmain, hR, hNF, hcmp]
    have hsub : ∀ q ∈ ps.filter (specRepeatFilter now) ++
        (sortBy (specNewLt now) (ps.filter (specNewFilter now))).take 2,
        q ∈ ps := by
      intro q hq
      rcases List.mem_append.mp hq with h | h
      · exact List.mem_of_mem_filter h
      · exact List.mem_of_mem_filter
          ((mem_sortBy _ _ q).mp (List.mem_of_mem_take h))
    exact dedupById_eq_dedupFirst (fun a ha b hb heq =>
      pairwise_id_unique hids a (hsub a ha) b (hsub b hb) heq)
  · rw [hmain, List.countP_eq_length_filter]
    have hnodup : ((dedupById ((ps.filter (fun p => !p.mastered)).filter
          (fun p => !isNewProblem p && isDueToday now p &&
            decide (getAttemptsToday now p < 1)) ++
        (sortBy (newProblemCmp now) ((ps.filter (fun p => !p.mastered)).filter
          (fun p => isNewProblem p &&
            decide (getAttemptsToday now p < 2)))).take 2)).filter
        (fun p : Problem => p.attempts.isEmpty)).Nodup :=
      (nodup_dedupById _).filter _
    have hsub : ((dedupById ((ps.filter (fun p => !p.mastered)).filter
          (fun p => !isNewProblem p && isDueToday now p &&
            decide (getAttemptsToday now p < 1)) ++
        (sortBy (newProblemCmp now) ((ps.filter (fun p => !p.mastered)).filter
          (fun p => isNewProblem p &&
            decide (getAttemptsToday now p < 2)))).take 2)).filter
        (fun p : Problem => p.attempts.isEmpty)) ⊆
        (sortBy (newProblemCmp now) ((ps.filter (fun p => !p.mastered)).filter
          (fun p => isNewProblem p &&
            decide (getAttemptsToday now p < 2)))).take 2 := by
      intro x hx
      rcases List.mem_filter.mp hx with ⟨hxd, hxe⟩
      rcases List.mem_append.mp (mem_dedupById_sub hxd) with h | h
      · exfalso
        have hc := (List.mem_filter.mp h).2
        rw [Bool.and_eq_true, Bool.and_eq_true] at hc
        have := hc.1.1
        rw [isNewProblem_eq] at this
        rw [hxe] at this
        simp at this
      · exact h
    exact le_trans (List.subperm_of_subset hnodup hsub).length_le
      (List.length_take_le 2 _)
  · rw [hmain, List.all_eq_true]
    intro x hx
    rcases List.mem_append.mp (mem_dedupById_sub hx) with h | h
    · exact (List.mem_filter.mp (List.mem_filter.mp h).1).2
    · exact (List.mem_filter.mp (List.mem_filter.mp
        ((mem_sortBy _ _ x).mp (List.mem_of_mem_take h))).1).2

/-- Witness for C5, at a singleton collection whose only problem is due. -/
theorem claim_C5_witness :
    getProblemsDueToday fixtureNow [fixtureInterval8] =
      specSelectDueToday fixtureNow [fixtureInterval8] :=
  (claim_C5 fixtureNow [fixtureInterval8]).1
    (List.pairwise_singleton _ _)

/-- Claim C6 counterexample: a due, non-mastered problem already attempted
once today is returned by the legacy selection but not by the richer one, so
the legacy output is not a subset of the rich output. -/
theorem claim_C6_counterexample :
    fixtureRepeatProblem ∈
      getProblemsDueTodayLegacy fixtureNow [fixtureRepeatProblem] ∧
    fixtureRepeatProblem ∉
      getProblemsDueToday fixtureNow [fixtureRepeatProblem] := by
  constructor
  · have h : getProblemsDueTodayLegacy fixtureNow [fixtureRepeatProblem] =
        [fixtureRepeatProblem] := rfl
    rw [h]
    exact List.mem_singleton.mpr rfl
  · have h : getProblemsDueToday fixtureNow [fixtureRepeatProblem] =
        ([] : List Problem) := rfl
    rw [h]
    exact List.not_mem_nil _

/-- Claim C6 (amended): the subsumption runs the other way round: for
collections with pairwise-distinct ids, every problem returned by the richer
attempt-count selection is also returned by the simpler legacy selection
(the legacy policy may return strictly more, as the counterexample shows). -/
theorem claim_C6_amended (now : Int) (ps : List Problem)
    (hids : ps.Pairwise (fun a b => a.id ≠ b.id)) :
    ∀ p ∈ getProblemsDueToday now ps, p ∈ getProblemsDueTodayLegacy now ps := by
  intro p hp
  have hmainR : getProblemsDueToday now ps =
      dedupById ((ps.filter (fun p => !p.mastered)).filter
          (fun p => !isNewProblem p && isDueToday now p &&
            decide (getAttemptsToday now p < 1)) ++
        (sortBy (newProblemCmp now) ((ps.filter (fun p => !p.mastered)).filter
          (fun p => isNewProblem p &&
            decide (getAttemptsToday now p < 2)))).take 2) := rfl
  have hmainL : getProblemsDueTodayLegacy now ps =
      dedupById (((ps.filter (fun p => !p.mastered)).filter
          (fun p => isDueToday now p) ++
        (ps.filter (fun p => !p.mastered)).filter
          (fun p => wasAttemptedToday now p)) ++
        (sortBy (fun a b => decide (getDifficultyPriority a.difficulty <
            getDifficultyPriority b.difficulty))
          ((ps.filter (fun p => !p.mastered)).filter
            (fun p => p.attempts.length == 0))).take 2) := rfl
  -- the rich new-problem group equals the legacy new-problem group
  have hfilter_eq : (ps.filter (fun p => !p.mastered)).filter
      (fun p => isNewProblem p && decide (getAttemptsToday now p < 2)) =
      (ps.filter (fun p => !p.mastered)).filter
        (fun p => p.attempts.length == 0) := by
    apply List.filter_congr
    intro x _
    by_cases hl : x.attempts.length = 0
    · have hz : getAttemptsToday now x = 0 := by
        unfold getAttemptsToday
        rw [if_pos hl]
      simp [isNewProblem, hl, hz]
    · simp [isNewProblem, hl]
  have hsort_eq : sortBy (newProblemCmp now)
      ((ps.filter (fun p => !p.mastered)).filter
        (fun p => p.attempts.length == 0)) =
      sortBy (fun a b => decide (getDifficultyPriority a.difficulty <
          getDifficultyPriority b.difficulty))
        ((ps.filter (fun p => !p.mastered)).filter
          (fun p => p.attempts.length == 0)) := by
    apply sortBy_congr
    intro a ha b hb
    have hza : getAttemptsToday now a = 0 := by
      unfold getAttemptsToday
      rw [if_pos (by simpa using (List.mem_filter.mp ha).2)]
    have hzb : getAttemptsToday now b = 0 := by
      unfold getAttemptsToday
      rw [if_pos (by simpa using (List.mem_filter.mp hb).2)]
    unfold newProblemCmp
    rw [hza, hzb]
    simp
  rw [hmainR, hfilter_eq, hsort_eq] at hp
  have hpL := mem_dedupById_sub hp
  -- p lands in the legacy concatenation
  have hpLegacyList : p ∈ ((ps.filter (fun p => !p.mastered)).filter
        (fun p => isDueToday now p) ++
      (ps.filter (fun p => !p.mastered)).filter
        (fun p => wasAttemptedToday now p)) ++
      (sortBy (fun a b => decide (getDifficultyPriority a.difficulty <
          getDifficultyPriority b.difficulty))
        ((ps.filter (fun p => !p.mastered)).filter
          (fun p => p.attempts.length == 0))).take 2 := by
    rcases List.mem_append.mp hpL with h | h
    · apply List.mem_append_left
      apply List.mem_append_left
      rcases List.mem_filter.mp h with ⟨hnm, hc⟩
      rw [Bool.and_eq_true, Bool.and_eq_true] at hc
      exact List.mem_filter.mpr ⟨hnm, hc.1.2⟩
    · exact List.mem_append_right _ h
  -- membership survives the Map de-duplication because ids are unique
  have hsub : ∀ q ∈ ((ps.filter (fun p => !p.mastered)).filter
        (fun p => isDueToday now p) ++
      (ps.filter (fun p => !p.mastered)).filter
        (fun p => wasAttemptedToday now p)) ++
      (sortBy (fun a b => decide (getDifficultyPriority a.difficulty <
          getDifficultyPriority b.difficulty))
        ((ps.filter (fun p => !p.mastered)).filter
          (fun p => p.attempts.length == 0))).take 2, q ∈ ps := by
    intro q hq
    rcases List.mem_append.mp hq with h | h
    · rcases List.mem_append.mp h with h1 | h1
      · exact List.mem_of_mem_filter (List.mem_of_mem_filter h1)
      · exact List.mem_of_mem_filter (List.mem_of_mem_filter h1)
    · exact List.mem_of_mem_filter (List.mem_of_mem_filter
        ((mem_sortBy _ _ q).mp (List.mem_of_mem_take h)))
  rw [hmainL]
  exact mem_dedupById_of_unique hpLegacyList (fun q hq heq =>
    pairwise_id_unique hids q (hsub q hq) p
      (hsub p hpLegacyList) heq)

/-- Witness for the amended C6: a due problem not attempted today is
returned by both policies. -/
theorem claim_C6_amended_witness :
    fixtureInterval8 ∈ getProblemsDueTodayLegacy fixtureNow [fixtureInterval8] := by
  have hmem : fixtureInterval8 ∈ getProblemsDueToday fixtureNow [fixtureInterval8] := by
    have h : getProblemsDueToday fixtureNow [fixtureInterval8] =
        [fixtureInterval8] := rfl
    rw [h]
    exact List.mem_singleton.mpr rfl
  exact claim_C6_amended fixtureNow [fixtureInterval8]
    (List.pairwise_singleton _ _) fixtureInterval8 hmem

/-! ## Claim theorems: import validation -/

lemma version_check_iff (fields : List (String × Json)) :
    (match fields.lookup "version" with
     | some (Json.num _) => true
     | _ => false) = true ↔
      ∃ q, fields.lookup "version" = some (Json.num q) := by
  cases hv : fields.lookup "version" with
  | none => simp
  | some j => cases j <;> simp

lemma problems_check_iff (fields : List (String × Json)) :
    (match fields.lookup "problems" with
     | some (Json.arr _) => true
     | _ => false) = true ↔
      ∃ elems, fields.lookup "problems" = some (Json.arr elems) := by
  cases hv : fields.lookup "problems" with
  | none => simp
  | some j => cases j <;> simp

lemma isValidBackup_iff (v : Json) :
    isValidBackup v = true ↔ BackupShapeOk v := by
  cases v with
  | obj fields =>
    simp only [isValidBackup, Bool.and_eq_true, version_check_iff,
      problems_check_iff, BackupShapeOk]
    constructor
    · rintro ⟨⟨q, hq⟩, ⟨elems, he⟩⟩
      exact ⟨fields, q, elems, rfl, hq, he⟩
    · rintro ⟨fields2, q, elems, heq, hq, he⟩
      cases heq
      exact ⟨⟨q, hq⟩, ⟨elems, he⟩⟩
  | null => simp [isValidBackup, BackupShapeOk]
  | bool b => simp [isValidBackup, BackupShapeOk]
  | num q => simp [isValidBackup, BackupShapeOk]
  | str s => simp [isValidBackup, BackupShapeOk]
  | arr elems => simp [isValidBackup, BackupShapeOk]

/-- Claim C8: importing a parsed JSON value fails with the single
"Invalid backup format" error exactly when the value is not an object with a
numeric version field and an array problems field; on any failure the stored
collection is untouched; on success the collection is replaced wholesale by
the imported problems array and its length is returned. -/
theorem claim_C8 (v : Json) (store : List Json) :
    ((importFromJsonValue v store).2 =
        Except.error "Invalid backup format" ↔ ¬ BackupShapeOk v) ∧
    (∀ s, (importFromJsonValue v store).2 = Except.error s →
      (importFromJsonValue v store).1 = store ∧ s = "Invalid backup format") ∧
    (∀ fields q elems, v = Json.obj fields →
      fields.lookup "version" = some (Json.num q) →
      fields.lookup "problems" = some (Json.arr elems) →
      importFromJsonValue v store = (elems, Except.ok elems.length)) := by
  by_cases hval : isValidBackup v = true
  · obtain ⟨fields, q, elems, hv, hq, he⟩ := (isValidBackup_iff v).mp hval
    have hres : importFromJsonValue v store = (elems, Except.ok elems.length) := by
      subst hv
      unfold importFromJsonValue
      rw [if_pos hval]
      simp [problemsOf, he]
    refine ⟨?_, ?_, ?_⟩
    · rw [hres]
      simp only [Except.ok.injEq]
      constructor
      · intro h; exact absurd h (by simp)
      · intro h; exact absurd ((isValidBackup_iff v).mp hval) h
    · intro s hs
      rw [hres] at hs
      exact absurd hs (by simp)
    · intro fields2 q2 elems2 hv2 hq2 he2
      rw [hv2] at hv
      cases hv
      rw [he] at he2
      cases he2
      exact hres
  · have hres : importFromJsonValue v store =
        (store, Except.error "Invalid backup format") := by
      unfold importFromJsonValue
      rw [if_neg hval]
    refine ⟨?_, ?_, ?_⟩
    · rw [hres]
      simp only [true_iff]
      intro hshape
      exact hval ((isValidBackup_iff v).mpr hshape)
    · intro s hs
      rw [hres] at hs
      refine ⟨by rw [hres], ?_⟩
      exact (Except.error.injEq _ _ |>.mp hs.symm)
    · intro fields2 q2 elems2 hv2 hq2 he2
      exact absurd ((isValidBackup_iff v).mpr ⟨fields2, q2, elems2, hv2, hq2, he2⟩)
        hval

/-- Witness for C8: a well-formed backup with an empty problems array
replaces a non-empty store and reports zero imported problems. -/
theorem claim_C8_witness :
    importFromJsonValue fixtureBackup fixtureStore =
      ([], Except.ok (List.length ([] : List Json))) :=
  (claim_C8 fixtureBackup fixtureStore).2.2
    [("version", Json.num 1), ("problems", Json.arr [])] 1 [] rfl rfl rfl

/-! ## Claim theorems: activity heatmap -/

lemma lookup_bumpKey_self :
    ∀ (m : List (Int × Nat)) (k : Int),
      List.lookup k (bumpKey m k) = some ((List.lookup k m).getD 0 + 1) := by
  intro m
  induction m with
  | nil => intro k; simp [bumpKey, List.lookup]
  | cons e t ih =>
    intro k
    by_cases h : e.1 = k
    · simp only [bumpKey]
      rw [if_pos (beq_iff_eq.mpr h)]
      subst h
      simp [List.lookup]
    · simp only [bumpKey]
      rw [if_neg (by simp [h])]
      have hk : (k == e.1) = false := beq_eq_false_iff_ne.mpr (fun hc => h hc.symm)
      simp [List.lookup, hk, ih]

lemma lookup_bumpKey_ne :
    ∀ (m : List (Int × Nat)) (k k2 : Int), k2 ≠ k →
      List.lookup k2 (bumpKey m k) = List.lookup k2 m := by
  intro m
  induction m with
  | nil =>
    intro k k2 hne
    simp [bumpKey, List.lookup, beq_eq_false_iff_ne.mpr hne]
  | cons e t ih =>
    intro k k2 hne
    simp only [bumpKey]
    by_cases h : e.1 = k
    · rw [if_pos (beq_iff_eq.mpr h)]
      have hk : (k2 == e.1) = false :=
        beq_eq_false_iff_ne.mpr (fun hc => hne (hc.trans h))
      simp [List.lookup, hk]
    · rw [if_neg (by simp [h])]
      by_cases h2 : k2 = e.1
      · simp [List.lookup, beq_iff_eq.mpr h2]
      · simp [List.lookup, beq_eq_false_iff_ne.mpr h2, ih k k2 hne]

lemma lookup_foldl_bump (q : Attempt → Bool) (k : Int) :
    ∀ (l : List Attempt) (m0 : List (Int × Nat)),
      List.lookup k (l.foldl
        (fun m a => if q a = true then bumpKey m (dayOf a.date) else m) m0) =
      (match List.lookup k m0 with
       | some v =>
          some (v + (l.filter (fun a => q a && (dayOf a.date == k))).length)
       | none =>
          if (l.filter (fun a => q a && (dayOf a.date == k))).length = 0
          then none
          else some ((l.filter (fun a => q a && (dayOf a.date == k))).length)) := by
  intro l
  induction l with
  | nil =>
    intro m0
    cases h : List.lookup k m0 <;> simp [h]
  | cons a t ih =>
    intro m0
    show List.lookup k (t.foldl _
      (if q a = true then bumpKey m0 (dayOf a.date) else m0)) = _
    by_cases hq : q a = true
    · by_cases hk : dayOf a.date = k
      · rw [if_pos hq, hk, ih (bumpKey m0 k)]
        rw [lookup_bumpKey_self]
        cases h : List.lookup k m0 with
        | none =>
          simp only [h, Option.getD_none, List.filter_cons, hq, hk]
          simp only [beq_self_eq_true, Bool.and_true, hq, if_pos]
          simp only [List.length_cons]
          rw [if_neg (by omega)]
          exact congrArg some (by omega)
        | some v =>
          simp only [h, Option.getD_some, List.filter_cons, hq, hk]
          simp only [beq_self_eq_true, Bool.and_true, hq, if_pos]
          simp only [List.length_cons]
          exact congrArg some (by omega)
      · rw [if_pos hq, ih (bumpKey m0 (dayOf a.date))]
        rw [lookup_bumpKey_ne _ _ _ (fun hc => hk hc.symm)]
        have hp : (q a && (dayOf a.date == k)) = false := by
          simp [beq_eq_false_iff_ne.mpr hk]
        simp only [List.filter_cons, hp, if_neg Bool.false_ne_true]
    · rw [if_neg hq, ih m0]
      have hp : (q a && (dayOf a.date == k)) = false := by
        have : q a = false := by revert hq; cases q a <;> simp
        simp [this]
      simp only [List.filter_cons, hp, if_neg Bool.false_ne_true]

lemma msPerDay_ne_zero : msPerDay ≠ 0 := by
  unfold msPerDay
  norm_num

lemma dayOf_mul (n : Int) : dayOf (n * msPerDay) = n := by
  unfold dayOf
  exact Int.mul_fdiv_cancel n msPerDay_ne_zero

lemma startOfDay_idem (t : Int) : startOfDay (startOfDay t) = startOfDay t := by
  show dayOf (dayOf t * msPerDay) * msPerDay = dayOf t * msPerDay
  rw [dayOf_mul]

lemma dayOf_window_start (now : Int) :
    dayOf (startOfDay now - 364 * msPerDay) = dayOf now - 364 := by
  show dayOf (dayOf now * msPerDay - 364 * msPerDay) = dayOf now - 364
  rw [show dayOf now * msPerDay - 364 * msPerDay =
    (dayOf now - 364) * msPerDay by ring]
  exact dayOf_mul _

lemma window_cond_eq (now : Int) (a : Attempt) :
    (decide (startOfDay (startOfDay now - 364 * msPerDay) ≤ startOfDay a.date ∧
      startOfDay a.date ≤ endOfDay (startOfDay now))) =
    (decide (dayOf now - 364 ≤ dayOf a.date) &&
      decide (dayOf a.date ≤ dayOf now)) := by
  rw [Bool.decide_and]
  have h1 : (decide (startOfDay (startOfDay now - 364 * msPerDay) ≤
      startOfDay a.date)) = decide (dayOf now - 364 ≤ dayOf a.date) := by
    apply decide_eq_decide.mpr
    have hs : startOfDay (startOfDay now - 364 * msPerDay) =
        (dayOf now - 364) * msPerDay := by
      show dayOf (startOfDay now - 364 * msPerDay) * msPerDay = _
      rw [dayOf_window_start]
    rw [hs]
    show (dayOf now - 364) * msPerDay ≤ dayOf a.date * msPerDay ↔ _
    simp only [msPerDay]
    constructor <;> intro h <;> omega
  have h2 : (decide (startOfDay a.date ≤ endOfDay (startOfDay now))) =
      decide (dayOf a.date ≤ dayOf now) := by
    apply decide_eq_decide.mpr
    unfold endOfDay
    rw [startOfDay_idem]
    unfold startOfDay
    simp only [msPerDay]
    constructor <;> intro h <;> omega
  rw [h1, h2]

/-- Claim C9: the rolling-window heatmap counts an attempt under its calendar
day exactly when that day lies in the 365-day window from today minus 364
days through today; days with zero attempts are absent from the map; the
resolved startDate is the start of day of the window start and the resolved
endDate is the end of day of the window end. -/
theorem claim_C9 (now : Int) (problems : List Problem) (d : Int) :
    List.lookup d (rollingHeatmap now problems).values =
      (if ((problems.flatMap (fun p => p.attempts)).filter
          (fun a => dayOf a.date == d &&
            (decide (dayOf now - 364 ≤ dayOf a.date) &&
             decide (dayOf a.date ≤ dayOf now)))).length = 0 then none
       else some (((problems.flatMap (fun p => p.attempts)).filter
          (fun a => dayOf a.date == d &&
            (decide (dayOf now - 364 ≤ dayOf a.date) &&
             decide (dayOf a.date ≤ dayOf now)))).length)) ∧
    (rollingHeatmap now problems).startDate =
      startOfDay (startOfDay now - 364 * msPerDay) ∧
    (rollingHeatmap now problems).endDate = endOfDay (startOfDay now) := by
  refine ⟨?_, rfl, rfl⟩
  have hv : (rollingHeatmap now problems).values =
      (problems.flatMap (fun p => p.attempts)).foldl
        (fun m a =>
          if startOfDay (startOfDay now - 364 * msPerDay) ≤ startOfDay a.date ∧
              startOfDay a.date ≤ endOfDay (startOfDay now)
          then bumpKey m (dayOf a.date)
          else m) [] := rfl
  rw [hv]
  have hfun : (fun (m : List (Int × Nat)) (a : Attempt) =>
      if startOfDay (startOfDay now - 364 * msPerDay) ≤ startOfDay a.date ∧
          startOfDay a.date ≤ endOfDay (startOfDay now)
      then bumpKey m (dayOf a.date)
      else m) =
      (fun m a =>
        if (decide (startOfDay (startOfDay now - 364 * msPerDay) ≤
            startOfDay a.date ∧
            startOfDay a.date ≤ endOfDay (startOfDay now))) = true
        then bumpKey m (dayOf a.date)
        else m) := by
    funext m a
    by_cases h : startOfDay (startOfDay now - 364 * msPerDay) ≤
        startOfDay a.date ∧ startOfDay a.date ≤ endOfDay (startOfDay now) <;>
      simp [h]
  rw [hfun, lookup_foldl_bump]
  have hpred : ∀ a ∈ problems.flatMap (fun p => p.attempts),
      ((decide (startOfDay (startOfDay now - 364 * msPerDay) ≤
          startOfDay a.date ∧
          startOfDay a.date ≤ endOfDay (startOfDay now))) &&
        (dayOf a.date == d)) =
      (dayOf a.date == d &&
        (decide (dayOf now - 364 ≤ dayOf a.date) &&
         decide (dayOf a.date ≤ dayOf now))) := by
    intro a _
    rw [window_cond_eq]
    exact Bool.and_comm _ _
  rw [List.filter_congr hpred]
  simp [List.lookup]

end SRS
